import Mathlib

/-!
Verification of the toy Bloom filter in `src/lib.rs`.

The filter has three fixed hash functions and a bit array of `M` flags,
each flag stored as a `u8` that is either 0 or 1.  This file embeds the
Rust source shallowly: `u8` values are `Nat`s in `[0, 255]`, the bit
array is a `List Nat`, and the `u8` arithmetic inside the hash functions
carries an explicit `% 256` wrap where the source can overflow.
-/

set_option maxRecDepth 4000

namespace Bloom

/-- The three hash-function variants, `enum Hash` in `src/lib.rs`. -/
inductive Hash where
  | H1
  | H2
  | H3
deriving DecidableEq

/-- `Hash::hash(hash, element, m)` from `src/lib.rs`.

The source computes `2 * element + 3` and `8 * element` in `u8`
arithmetic and only then casts to `usize`, so those intermediate values
wrap modulo 2^8; the wrap is written here as an explicit `% 256`
(release-profile wrapping semantics; under debug assertions the same
overflow aborts the program instead).  `element` stands for a `u8`,
i.e. a value in `[0, 255]`. -/
def Hash.hash (h : Hash) (element : Nat) (m : Nat) : Nat :=
  match h with
  | .H1 => element % m
  | .H2 => (2 * element + 3) % 256 % m
  | .H3 => (8 * element) % 256 % m

/-- `struct Set` from `src/lib.rs`: a vector of `u8` flags. -/
structure Set where
  bits : List Nat
deriving DecidableEq

/-- `Set::with_size(size)`: a bit array of `size` flags, all 0. -/
def Set.with_size (size : Nat) : Set :=
  { bits := List.replicate size 0 }

/-- `Set::new()` / `Default for Set`: size 256. -/
def Set.new : Set :=
  Set.with_size 256

/-- `Set::add(&mut self, element)`: sets the flags at the three hash
indices to 1, computing `m` once from the current length. -/
def Set.add (s : Set) (element : Nat) : Set :=
  let m := s.bits.length
  { bits :=
      ((s.bits.set (Hash.hash .H1 element m) 1).set
        (Hash.hash .H2 element m) 1).set (Hash.hash .H3 element m) 1 }

/-- `Set::query(&mut self, element)`: true iff the flags at the three
hash indices all equal 1. -/
def Set.query (s : Set) (element : Nat) : Bool :=
  let m := s.bits.length
  (s.bits.getD (Hash.hash .H1 element m) 0 == 1)
    && (s.bits.getD (Hash.hash .H2 element m) 0 == 1)
    && (s.bits.getD (Hash.hash .H3 element m) 0 == 1)

/-- `Set::query` with its `&mut self` receiver made explicit as state
passing: the body of the source contains no assignment, so the state
comes back unchanged next to the boolean result. -/
def Set.queryState (s : Set) (element : Nat) : Bool × Set :=
  (s.query element, s)

/-- `impl Display for Set`: each flag rendered with `to_string`, joined
by single spaces (`join(" ")`), in index order. -/
def Set.display (s : Set) : String :=
  String.intercalate " " (s.bits.map toString)

/-- A finite sequence of `add` calls, leftmost performed first. -/
def Set.addAll (s : Set) (es : List Nat) : Set :=
  es.foldl Set.add s

/-! ### Helper lemmas -/

lemma hashLt (h : Hash) (e m : Nat) (hM : 1 ≤ m) : Hash.hash h e m < m := by
  cases h <;> exact Nat.mod_lt _ hM

lemma add_def (s : Set) (e : Nat) :
    s.add e =
      { bits := ((s.bits.set (Hash.hash .H1 e s.bits.length) 1).set
          (Hash.hash .H2 e s.bits.length) 1).set
          (Hash.hash .H3 e s.bits.length) 1 } := rfl

lemma getD_set_one (l : List Nat) (i j : Nat) (h : l.getD i 0 = 1) :
    (l.set j 1).getD i 0 = 1 := by
  induction l generalizing i j with
  | nil => simp at h
  | cons a t ih =>
    cases j with
    | zero =>
      cases i with
      | zero => rfl
      | succ i => simpa using h
    | succ j =>
      cases i with
      | zero => simpa using h
      | succ i => simpa using ih i j (by simpa using h)

lemma getD_set_self (l : List Nat) (i : Nat) (h : i < l.length) :
    (l.set i 1).getD i 0 = 1 := by
  induction l generalizing i with
  | nil => simp at h
  | cons a t ih =>
    cases i with
    | zero => rfl
    | succ i => simpa using ih i (by simpa using h)

lemma getD_set_ne (l : List Nat) (v i j : Nat) (h : i ≠ j) :
    (l.set j v).getD i 0 = l.getD i 0 := by
  induction l generalizing i j with
  | nil => simp
  | cons a t ih =>
    cases j with
    | zero =>
      cases i with
      | zero => exact absurd rfl h
      | succ i => simp
    | succ j =>
      cases i with
      | zero => simp
      | succ i => simpa using ih i j (fun hij => h (by simp [hij]))

lemma set_of_getD_one (l : List Nat) (i : Nat) (h : l.getD i 0 = 1) :
    l.set i 1 = l := by
  induction l generalizing i with
  | nil => rfl
  | cons a t ih =>
    cases i with
    | zero => simp_all
    | succ i => simpa using ih i (by simpa using h)

lemma with_size_length (M : Nat) : (Set.with_size M).bits.length = M := by
  simp [Set.with_size]

lemma add_length (s : Set) (e : Nat) :
    (s.add e).bits.length = s.bits.length := by
  simp [Set.add]

lemma addAll_cons (s : Set) (a : Nat) (t : List Nat) :
    Set.addAll s (a :: t) = Set.addAll (s.add a) t := rfl

lemma addAll_length (s : Set) (es : List Nat) :
    (Set.addAll s es).bits.length = s.bits.length := by
  induction es generalizing s with
  | nil => rfl
  | cons a t ih => rw [addAll_cons]; exact (ih (s.add a)).trans (add_length s a)

lemma add_keeps_one (s : Set) (e i : Nat) (h : s.bits.getD i 0 = 1) :
    (s.add e).bits.getD i 0 = 1 := by
  rw [add_def]
  exact getD_set_one _ _ _ (getD_set_one _ _ _ (getD_set_one _ _ _ h))

lemma addAll_keeps_one (s : Set) (es : List Nat) (i : Nat)
    (h : s.bits.getD i 0 = 1) :
    (Set.addAll s es).bits.getD i 0 = 1 := by
  induction es generalizing s with
  | nil => exact h
  | cons a t ih => rw [addAll_cons]; exact ih (s.add a) (add_keeps_one s a i h)

lemma add_sets_flags (s : Set) (e : Nat) (hM : 1 ≤ s.bits.length) (h : Hash) :
    (s.add e).bits.getD (Hash.hash h e s.bits.length) 0 = 1 := by
  rw [add_def]
  cases h with
  | H1 =>
    exact getD_set_one _ _ _ (getD_set_one _ _ _
      (getD_set_self _ _ (hashLt .H1 e _ hM)))
  | H2 =>
    refine getD_set_one _ _ _ (getD_set_self _ _ ?_)
    simpa using hashLt .H2 e s.bits.length hM
  | H3 =>
    refine getD_set_self _ _ ?_
    simpa using hashLt .H3 e s.bits.length hM

lemma query_iff (s : Set) (e : Nat) :
    s.query e = true ↔
      (s.bits.getD (Hash.hash .H1 e s.bits.length) 0 = 1 ∧
       s.bits.getD (Hash.hash .H2 e s.bits.length) 0 = 1 ∧
       s.bits.getD (Hash.hash .H3 e s.bits.length) 0 = 1) := by
  simp [Set.query, Bool.and_eq_true, beq_iff_eq, and_assoc]

lemma add_twice (s : Set) (e : Nat) (hM : 1 ≤ s.bits.length) :
    (s.add e).add e = s.add e := by
  have hone : ∀ h : Hash,
      (s.add e).bits.getD (Hash.hash h e (s.add e).bits.length) 0 = 1 := by
    intro h
    rw [add_length]
    exact add_sets_flags s e hM h
  rw [add_def (s.add e) e, set_of_getD_one _ _ (hone .H1),
    set_of_getD_one _ _ (hone .H2), set_of_getD_one _ _ (hone .H3)]

/-! ### Claim theorems -/

/-- Claim C1 (counter-evidence): the claim that `hash(H2, e, M) = (2e+3) mod M`
and `hash(H3, e, M) = (8e) mod M` with exact (non-overflowing) intermediate
arithmetic fails on the code: the source computes `2 * element + 3` and
`8 * element` in `u8`, which wraps modulo 256 (release profile; aborts under
debug assertions).  At `H3`, element 32, modulus 5 the code yields
`(8·32 mod 256) mod 5 = 0` whereas exact arithmetic gives `256 mod 5 = 1`;
at `H2`, element 127, modulus 300 the code yields `(257 mod 256) mod 300 = 1`
whereas exact arithmetic gives `257`.  The code contradicts its own doc
comment `H3(x) = 8x mod M`, so this is a bug in the code, not the claim. -/
theorem hash_u8_overflow_diverges :
    Hash.hash .H3 32 5 = 0 ∧ (8 * 32) % 5 = 1 ∧
    Hash.hash .H2 127 300 = 1 ∧ (2 * 127 + 3) % 300 = 257 := by
  decide

/-- Claim C2: on a `Set` built with size `M ≥ 1`, after any earlier adds
`es1`, a call `add e` with `e ≤ 255`, and any later adds `es2`, `query e`
returns `true` — no false negatives, monotonically. -/
theorem no_false_negatives (M e : Nat) (es1 es2 : List Nat)
    (hM : 1 ≤ M) (_he : e ≤ 255) :
    (Set.addAll ((Set.addAll (Set.with_size M) es1).add e) es2).query e
      = true := by
  have hs1 : (Set.addAll (Set.with_size M) es1).bits.length = M :=
    (addAll_length _ _).trans (with_size_length M)
  have hlen2 : ((Set.addAll (Set.with_size M) es1).add e).bits.length = M :=
    (add_length _ _).trans hs1
  have hfin : ∀ h : Hash,
      (Set.addAll ((Set.addAll (Set.with_size M) es1).add e) es2).bits.getD
        (Hash.hash h e M) 0 = 1 := by
    intro h
    apply addAll_keeps_one
    have hset := add_sets_flags (Set.addAll (Set.with_size M) es1) e
      (by rw [hs1]; exact hM) h
    rwa [hs1] at hset
  have hlenf :
      (Set.addAll ((Set.addAll (Set.with_size M) es1).add e) es2).bits.length
        = M := (addAll_length _ _).trans hlen2
  rw [query_iff, hlenf]
  exact ⟨hfin .H1, hfin .H2, hfin .H3⟩

/-- Witness for C2 at `M = 5`, adds `[9]`, `add 11`, no later adds. -/
theorem no_false_negatives_w :
    (Set.addAll ((Set.addAll (Set.with_size 5) [9]).add 11) []).query 11
      = true :=
  no_false_negatives 5 11 [9] [] (by decide) (by decide)

/-- Claim C3: for any element and any set with `M ≥ 1` flags, each of the
three hash functions yields an index in `[0, M)`, so every bit-array access
in `add` and `query` (all of which index at `Hash.hash h e m` with
`m = s.bits.length`) is in bounds and the out-of-bounds panic branch is
unreachable. -/
theorem hash_index_in_bounds (s : Set) (e : Nat) (h : Hash)
    (hM : 1 ≤ s.bits.length) (_he : e ≤ 255) :
    Hash.hash h e s.bits.length < s.bits.length :=
  hashLt h e s.bits.length hM

/-- Witness for C3 at a set of size 4, element 7, variant `H1`. -/
theorem hash_index_in_bounds_w :
    Hash.hash .H1 7 (Set.with_size 4).bits.length
      < (Set.with_size 4).bits.length :=
  hash_index_in_bounds (Set.with_size 4) 7 .H1 (by decide) (by decide)

/-- Claim C4: `query e` returns `true` iff the flags at all three hash
indices equal 1 (equivalently, it returns `false` whenever at least one of
them differs from 1).  Proved for every set and element, which covers the
claimed case `M ≥ 1`, `e ≤ 255`. -/
theorem query_true_iff_all_flags (s : Set) (e : Nat) :
    s.query e = true ↔
      (s.bits.getD (Hash.hash .H1 e s.bits.length) 0 = 1 ∧
       s.bits.getD (Hash.hash .H2 e s.bits.length) 0 = 1 ∧
       s.bits.getD (Hash.hash .H3 e s.bits.length) 0 = 1) :=
  query_iff s e

/-- Claim C5: on any set reachable from `with_size M` by adds, the bit
sequence has length exactly `M`, `add` and `query` preserve that length,
and no operation clears a flag: a flag equal to 1 stays 1 after `add`. -/
theorem add_query_preserve_invariants (M : Nat) (es : List Nat) :
    (Set.addAll (Set.with_size M) es).bits.length = M ∧
    (∀ e : Nat,
      ((Set.addAll (Set.with_size M) es).add e).bits.length = M ∧
      ((Set.addAll (Set.with_size M) es).queryState e).2.bits.length = M) ∧
    (∀ e i : Nat,
      (Set.addAll (Set.with_size M) es).bits.getD i 0 = 1 →
      ((Set.addAll (Set.with_size M) es).add e).bits.getD i 0 = 1) := by
  have hlen : (Set.addAll (Set.with_size M) es).bits.length = M :=
    (addAll_length _ _).trans (with_size_length M)
  refine ⟨hlen, fun e => ⟨(add_length _ _).trans hlen, hlen⟩, fun e i hi => ?_⟩
  exact add_keeps_one _ e i hi

/-- Witness for C5: on `with_size 3` after `add 2`, index 1 holds flag 1,
and a further `add 0` keeps it at 1. -/
theorem add_query_preserve_invariants_w :
    ((Set.addAll (Set.with_size 3) [2]).add 0).bits.getD 1 0 = 1 :=
  (add_query_preserve_invariants 3 [2]).2.2 0 1 (by decide)

/-- Claim C6: `add e` is idempotent — iterating it `n + 1` times from any
set with at least one flag yields the same state as one call. -/
theorem add_idempotent (s : Set) (e n : Nat)
    (hM : 1 ≤ s.bits.length) (_he : e ≤ 255) :
    (fun t => Set.add t e)^[n + 1] s = s.add e := by
  induction n with
  | zero => rfl
  | succ n ih =>
    rw [Function.iterate_succ_apply', ih]
    exact add_twice s e hM

/-- Witness for C6: two `add 2` calls on `with_size 3` equal one. -/
theorem add_idempotent_w :
    (fun t => Set.add t 2)^[2] (Set.with_size 3) = (Set.with_size 3).add 2 :=
  add_idempotent (Set.with_size 3) 2 1 (by decide) (by decide)

/-- Claim C7: `query` leaves the bit sequence unchanged — in the
state-passing reading of its `&mut self` receiver, the state returned is
the state passed in, whatever the boolean result. -/
theorem query_no_side_effects (s : Set) (e : Nat) :
    (s.queryState e).2 = s := rfl

/-- Witness for C7 (the universally quantified form has no propositional
hypothesis, but the concrete instance is recorded anyway): querying 4 on a
fresh set of size 6 returns the set unchanged. -/
theorem query_no_side_effects_w :
    ((Set.with_size 6).queryState 4).2 = Set.with_size 6 :=
  query_no_side_effects (Set.with_size 6) 4

/-- Claim C8: the documented false-positive scenario — size 5, add 9 and
11, then `query 16` answers `true` although 16 was never added. -/
theorem false_positive_scenario :
    (((Set.with_size 5).add 9).add 11).query 16 = true ∧
    (16 : Nat) ∉ ([9, 11] : List Nat) := by
  decide

/-- Claim C9: the display operation joins the flags, rendered in index
order, with single spaces and no trailing separator; a fresh set of size
`M` therefore displays as `M` zero flags separated by single spaces. -/
theorem display_fresh_set (M : Nat) :
    (Set.with_size M).display = String.intercalate " " (List.replicate M "0")
      ∧ ∀ s : Set, s.display = String.intercalate " " (s.bits.map toString) := by
  constructor
  · have h0 : toString (0 : Nat) = "0" := rfl
    simp [Set.display, Set.with_size, List.map_replicate, h0]
  · intro s
    rfl

/-- Claim C10: `add e` sets the flags at the three hash indices to 1 and
leaves the flag at every other index exactly as it was. -/
theorem add_frame (s : Set) (e : Nat)
    (hM : 1 ≤ s.bits.length) (_he : e ≤ 255) :
    (∀ h : Hash, (s.add e).bits.getD (Hash.hash h e s.bits.length) 0 = 1) ∧
    (∀ i : Nat,
      i ≠ Hash.hash .H1 e s.bits.length →
      i ≠ Hash.hash .H2 e s.bits.length →
      i ≠ Hash.hash .H3 e s.bits.length →
      (s.add e).bits.getD i 0 = s.bits.getD i 0) := by
  refine ⟨add_sets_flags s e hM, fun i h1 h2 h3 => ?_⟩
  rw [add_def]
  exact (getD_set_ne _ _ _ _ h3).trans
    ((getD_set_ne _ _ _ _ h2).trans (getD_set_ne _ _ _ _ h1))

/-- Witness for C10: on `with_size 3`, `add 2` touches indices 2, 1, 1
only; the flag at index 0 is unchanged. -/
theorem add_frame_w :
    ((Set.with_size 3).add 2).bits.getD 0 0 = (Set.with_size 3).bits.getD 0 0 :=
  (add_frame (Set.with_size 3) 2 (by decide) (by decide)).2 0
    (by decide) (by decide) (by decide)

end Bloom
